import Mathlib

/-!
Verification of the configurable multi-step AI workflow engine
(`src/config_workflow.py`, `src/workflow.py`, `src/chatgpt_client.py`,
`src/web_search_client.py`) against its natural-language specification.

The Python code is shallowly embedded: strings are `List Char` (wrapped in
`String` at the interfaces), Python dicts with a fixed key set become
structures, the running template context (a dict mixing the raw `input`
string with per-step record dicts) becomes an insertion-ordered association
list, and the remote model providers become oracle functions.  Invocations of
the providers are collected in an explicit trace so that claims about which
calls happen (and in which order) can be stated.  Uncaught Python exceptions
are modelled by explicit error constructors.
-/

namespace Floop

/-! ## Basic string machinery (Python `str` helpers used by the code) -/

/-- Decides whether `p` is a leading segment of `s` (used to locate substring
occurrences, mirroring how Python's `str.replace` and `in` scan a string). -/
def isPre : List Char → List Char → Bool
  | [], _ => true
  | _ :: _, [] => false
  | p :: ps, c :: cs => p = c && isPre ps cs

/-- Python's substring test `pat in s`. -/
def isSub (pat : List Char) : List Char → Bool
  | [] => isPre pat []
  | c :: cs => isPre pat (c :: cs) || isSub pat cs

/-- Python's `str.replace(pat, rep)`: replace all non-overlapping occurrences,
left to right, never rescanning the replacement text.  The `pat = []` case is
dead in this development (every pattern passed is brace-delimited and hence
non-empty); it returns `s` unchanged. -/
def replaceAll (s pat rep : List Char) : List Char :=
  if pat = [] then s
  else
    match s with
    | [] => []
    | c :: cs =>
      if isPre pat (c :: cs) then rep ++ replaceAll ((c :: cs).drop pat.length) pat rep
      else c :: replaceAll cs pat rep
termination_by s.length
decreasing_by
  · simp only [List.length_drop]
    cases pat with
    | nil => simp_all
    | cons p ps => simp [List.length_cons]; omega
  · simp [List.length_cons]

/-- Python's `str.split('.')`. -/
def splitDots : List Char → List (List Char)
  | [] => [[]]
  | '.' :: rest => [] :: splitDots rest
  | c :: rest =>
    match splitDots rest with
    | [] => [[c]]
    | h :: t => (c :: h) :: t

/-- ASCII lowering of one character, the fragment of Python's `str.lower`
exercised by the error-classification code (error messages are ASCII). -/
def lowerCh (c : Char) : Char :=
  if 'A' ≤ c ∧ c ≤ 'Z' then Char.ofNat (c.toNat + 32) else c

/-- Python `not s.strip()`: the string consists only of whitespace. -/
def isPySpace (c : Char) : Bool :=
  c = ' ' || c = '\t' || c = '\n' || c = '\x0b' || c = '\x0c' || c = '\r'

/-! ## Decimal rendering of naturals (Python f-string `step_{i}` names) -/

/-- Decimal digit characters of `n`, most significant first, as produced by
Python's `str(n)` / f-string interpolation. -/
def natChars (n : Nat) : List Char :=
  if n < 10 then [Char.ofNat (48 + n)]
  else natChars (n / 10) ++ [Char.ofNat (48 + n % 10)]
termination_by n
decreasing_by
  exact Nat.div_lt_self (by omega) (by omega)

/-- Numeric value read back from a digit list (left inverse of `natChars`). -/
def charsVal (l : List Char) : Nat :=
  l.foldl (fun a c => a * 10 + (c.toNat - 48)) 0

theorem digit_toNat : ∀ m : Nat, m < 10 → (Char.ofNat (48 + m)).toNat = 48 + m := by
  decide

theorem charsVal_append (l : List Char) (c : Char) :
    charsVal (l ++ [c]) = charsVal l * 10 + (c.toNat - 48) := by
  simp [charsVal, List.foldl_append]

theorem charsVal_natChars : ∀ n : Nat, charsVal (natChars n) = n := by
  intro n
  induction n using Nat.strong_induction_on with
  | _ n ih =>
    rw [natChars]
    by_cases h : n < 10
    · simp only [h, if_true, charsVal, List.foldl]
      rw [digit_toNat n h]
      omega
    · simp only [h, if_false]
      rw [charsVal_append]
      rw [ih (n / 10) (Nat.div_lt_self (by omega) (by omega))]
      rw [digit_toNat (n % 10) (Nat.mod_lt n (by omega))]
      omega

theorem natChars_inj {a b : Nat} (h : natChars a = natChars b) : a = b := by
  rw [← charsVal_natChars a, ← charsVal_natChars b, h]

/-- Decimal rendering as a `String` (Python `str(n)`). -/
def natString (n : Nat) : String :=
  String.mk (natChars n)

/-- The step name the runner generates for the `i`-th entry of `ai_models`
(Python `f'step_{i+1}'`, so this is applied to `i+1`). -/
def stepName (n : Nat) : String :=
  "step_" ++ natString n

theorem string_append_data (s t : String) : (s ++ t).data = s.data ++ t.data := by
  cases s; cases t; rfl

theorem stepName_inj {a b : Nat} (h : stepName a = stepName b) : a = b := by
  apply natChars_inj
  have hd : (stepName a).data = (stepName b).data := by rw [h]
  simp only [stepName, natString, string_append_data] at hd
  exact List.append_cancel_left hd

theorem stepName_ne_input (n : Nat) : stepName n ≠ "input" := by
  intro h
  have hd : (stepName n).data = ("input" : String).data := by rw [h]
  simp only [stepName, natString, string_append_data] at hd
  simp at hd

/-! ## Data model

`StepOk` is the success-shaped step record dict built by `execute_step`
(`{output, text, model, model_info, usage, step_name, task}`); `Outcome` is
the Model Invocation Outcome (`{text, model, usage}` or `{error, text}`);
`Context` is the running context dict, whose values are either the raw
`input` string or a step record. -/

structure StepOk where
  output : String
  text : String
  model : String
  model_info : String
  usage : List (String × Nat)
  step_name : String
  task : String
deriving DecidableEq

inductive CtxVal where
  | s (v : String)
  | record (r : StepOk)
deriving DecidableEq

/-- The context dict: an insertion-ordered association list without duplicate
keys (the code only writes through `ctxSet`). -/
def Context : Type := List (String × CtxVal)

instance : DecidableEq Context := by
  unfold Context
  infer_instance

/-- Python dict lookup `ctx[k]` / `ctx.get(k)`. -/
def ctxGet : Context → String → Option CtxVal
  | [], _ => none
  | (k', v) :: rest, k => if k' = k then some v else ctxGet rest k

/-- Python dict assignment `ctx[k] = v`: overwrite in place, or append a new
key at the end (dicts preserve insertion order). -/
def ctxSet : Context → String → CtxVal → Context
  | [], k, v => [(k, v)]
  | (k', v') :: rest, k, v =>
    if k' = k then (k, v) :: rest else (k', v') :: ctxSet rest k v

/-- The keys of the context, in insertion order. -/
def ctxKeys (ctx : Context) : List String :=
  ctx.map Prod.fst

/-- Result of one underlying model invocation (`call_chatgpt_single`,
`call_claude_single`, or the web-search call): `{text, model, usage}` on
success and `{error, text}` on failure. -/
inductive Outcome where
  | success (text model : String) (usage : List (String × Nat))
  | failure (error text : String)
deriving DecidableEq

/-- One provider invocation, as recorded in the trace. -/
inductive Call where
  | chatgpt (prompt : String) (maxTokens : Nat) (temp : Rat)
  | claude (prompt : String) (maxTokens : Nat) (temp : Rat)
  | webSearch (query : String)
deriving DecidableEq

/-- The provider oracles standing for `call_chatgpt` / `call_claude` /
`call_web_search` applied to a plain string prompt (each of those wraps its
own retry loop; at workflow level it is one opaque call returning an
outcome, per the spec's Model Invoker contract). -/
structure Providers where
  chatgpt : String → Nat → Rat → Outcome
  claude : String → Nat → Rat → Outcome
  webSearch : String → Outcome

/-- `model_params` of a step (`{max_tokens?, temperature?}`). -/
structure ModelParams where
  maxTokens : Option Nat
  temperature : Option Rat
deriving DecidableEq

/-- One entry of a configured `steps` list, as read by `execute_step` via
`step_config.get(...)`; `none` models an absent key. -/
structure StepCfg where
  name : Option String
  model : Option String
  prompt_template : Option String
  model_params : ModelParams
  task : Option String
deriving DecidableEq

/-- One entry of the `ai_models` configuration list. -/
structure ModelCfg where
  name : Option String
  task : Option String
  parameters : ModelParams
deriving DecidableEq

/-! ## Python `str.format` (used by `execute_step`, line 174)

`execute_step` resolves the prompt with `prompt_template.format(**context)`.
The embedding covers the format-string features that can arise here: literal
text, `{{`/`}}` escapes, and `{name}` / `{name.attr}` replacement fields.
Conversion/format-spec suffixes (`!`, `:`), index chains (`[...]`), and
rendering a whole record dict are outside the claims and map to the explicit
`unmodeled` result; attribute access on a string or dict value maps to
`attrErr` (CPython raises `AttributeError` for the attribute names that occur
in configurations, such as `output`; genuine `str`/`dict` method names, which
no configuration uses, are not distinguished). -/

inductive FmtOut where
  | ok (out : List Char)
  | keyErr (name : String)
  | attrErr
  | idxErr
  | braceErr
  | unmodeled
deriving DecidableEq

/-- Scans a replacement field: the characters before the next `}` together
with the remainder after it; `none` when the string ends first (CPython:
`ValueError: expected '}' before end of string`). -/
def takeField : List Char → Option (List Char × List Char)
  | [] => none
  | c :: rest =>
    if c = '\x7d' then some ([], rest)
    else
      match takeField rest with
      | some (f, r) => some (c :: f, r)
      | none => none

theorem takeField_len :
    ∀ l f r, takeField l = some (f, r) → r.length < l.length := by
  intro l
  induction l with
  | nil => intro f r h; simp [takeField] at h
  | cons c rest ih =>
    intro f r h
    rw [takeField] at h
    split at h
    · simp only [Option.some.injEq, Prod.mk.injEq] at h
      simp [← h.2, List.length_cons]
    · split at h
      · rename_i f' r' hrec
        simp only [Option.some.injEq, Prod.mk.injEq] at h
        have := ih f' r' hrec
        simp [← h.2, List.length_cons]
        omega
      · cases h

theorem takeField_split :
    ∀ l f r, takeField l = some (f, r) → l = f ++ '\x7d' :: r ∧ '\x7d' ∉ f := by
  intro l
  induction l with
  | nil => intro f r h; simp [takeField] at h
  | cons c rest ih =>
    intro f r h
    rw [takeField] at h
    split at h
    · rename_i hc
      simp only [Option.some.injEq, Prod.mk.injEq] at h
      rw [← h.1, ← h.2]
      simp [hc]
    · rename_i hc
      split at h
      · rename_i f' r' hrec
        simp only [Option.some.injEq, Prod.mk.injEq] at h
        obtain ⟨e1, e2⟩ := ih f' r' hrec
        rw [← h.1, ← h.2]
        constructor
        · rw [e1]; simp
        · simp [e2]
          exact fun hh => hc hh.symm
      · cases h

/-- Splits a replacement field into its argument name (up to the first `.`
or `[`) and the remaining attribute/index chain. -/
def splitName : List Char → List Char × List Char
  | [] => ([], [])
  | c :: rest =>
    if c = '.' ∨ c = '\x5b' then ([], c :: rest)
    else
      let p := splitName rest
      (c :: p.1, p.2)

def isDigitCh (c : Char) : Bool :=
  '0' ≤ c && c ≤ '9'

/-- Evaluates one replacement field of a format string against the context
(kwargs).  An all-digit or empty argument name is a positional reference and
raises `IndexError` (`.format(**context)` passes no positional arguments); a
missing keyword raises `KeyError`; an attribute chain on a string/dict value
raises `AttributeError`. -/
def evalField (f : List Char) (ctx : Context) : FmtOut :=
  if f.contains ':' || f.contains '!' then .unmodeled
  else if f.contains '\x7b' then .braceErr
  else
    let p := splitName f
    if p.1 = [] || p.1.all isDigitCh then .idxErr
    else
      match ctxGet ctx (String.mk p.1) with
      | none => .keyErr (String.mk p.1)
      | some v =>
        match p.2 with
        | [] =>
          match v with
          | .s w => .ok w.data
          | .record _ => .unmodeled
        | '.' :: _ => .attrErr
        | _ :: _ => .unmodeled

/-- The scanning loop of `str.format`: copies literal text, decodes `{{` and
`}}` escapes, and substitutes replacement fields; `acc` holds the output so
far, reversed. -/
def pyFormatGo (ctx : Context) (acc : List Char) (l : List Char) : FmtOut :=
  match l with
  | [] => .ok acc.reverse
  | c :: rest =>
    if c = '\x7b' then
      match rest with
      | c2 :: rest2 =>
        if c2 = '\x7b' then pyFormatGo ctx ('\x7b' :: acc) rest2
        else
          match htf : takeField (c2 :: rest2) with
          | none => .braceErr
          | some (f, rest') =>
            match evalField f ctx with
            | .ok sub => pyFormatGo ctx (sub.reverse ++ acc) rest'
            | .keyErr n => .keyErr n
            | .attrErr => .attrErr
            | .idxErr => .idxErr
            | .braceErr => .braceErr
            | .unmodeled => .unmodeled
      | [] => .braceErr
    else if c = '\x7d' then
      match rest with
      | c2 :: rest2 =>
        if c2 = '\x7d' then pyFormatGo ctx ('\x7d' :: acc) rest2
        else .braceErr
      | [] => .braceErr
    else pyFormatGo ctx (c :: acc) rest
termination_by l.length
decreasing_by
  · simp [List.length_cons]; omega
  · have := takeField_len _ _ _ htf; simp [List.length_cons] at this ⊢; omega
  · simp [List.length_cons]; omega
  · simp [List.length_cons]

/-- Python's `template.format(**context)`, as called on line 174 of
`config_workflow.py`. -/
def pyFormat (template : List Char) (ctx : Context) : FmtOut :=
  pyFormatGo ctx [] template

/-- The placeholder scan of `process_template` (line 141):
`re.findall(r'\{([^}]+)\}', template)` — all non-overlapping captures of a
`{`, then one or more non-`}` characters, then `}`. -/
def findPH (l : List Char) : List (List Char) :=
  match l with
  | [] => []
  | c :: rest =>
    if c = '\x7b' then
      match htf : takeField rest with
      | some (f, rest') => if f = [] then findPH rest else f :: findPH rest'
      | none => findPH rest
    else findPH rest
termination_by l.length
decreasing_by
  · simp [List.length_cons]
  · have := takeField_len _ _ _ htf; simp [List.length_cons]; omega
  · simp [List.length_cons]
  · simp [List.length_cons]

/-! ## `process_template` (config_workflow.py lines 129-154)

The function scans for placeholders, then loops over them replacing `{input}`
with `context['input']` and `{step.attr}` with `context[step][attr]` when
both exist; anything else is skipped.  Two uncaught exceptions are possible
and modelled explicitly: `valueError` when a placeholder containing a dot
splits into more or fewer than two parts (`step_name, attribute =
placeholder.split('.')`), and `typeError` when the replacement value is not
a string (`str.replace` with a dict argument, or `attribute in <str>`
followed by string indexing). -/

inductive PTOut where
  | ok (r : List Char)
  | valueError
  | typeError
deriving DecidableEq

/-- Field access on a step record dict (`attribute in record` /
`record[attribute]`): the seven keys written by `execute_step`; `usage` holds
a nested dict, every other value is a string. -/
inductive FieldV where
  | strF (v : String)
  | usageF (u : List (String × Nat))
deriving DecidableEq

def recFieldGet (r : StepOk) (k : String) : Option FieldV :=
  if k = "output" then some (.strF r.output)
  else if k = "text" then some (.strF r.text)
  else if k = "model" then some (.strF r.model)
  else if k = "model_info" then some (.strF r.model_info)
  else if k = "usage" then some (.usageF r.usage)
  else if k = "step_name" then some (.strF r.step_name)
  else if k = "task" then some (.strF r.task)
  else none

/-- One iteration of the replacement loop of `process_template` for the
placeholder `p` over the current result string `r`. -/
def phStep (ctx : Context) (r : List Char) (p : List Char) : PTOut :=
  if p = "input".data then
    match ctxGet ctx "input" with
    | some (.s v) => .ok (replaceAll r ('\x7b' :: p ++ ['\x7d']) v.data)
    | some (.record _) => .typeError
    | none => .ok r
  else if p.contains '.' then
    match splitDots p with
    | [a, b] =>
      match ctxGet ctx (String.mk a) with
      | some (.s v) => if isSub b v.data then .typeError else .ok r
      | some (.record sr) =>
        match recFieldGet sr (String.mk b) with
        | some (.strF v) => .ok (replaceAll r ('\x7b' :: p ++ ['\x7d']) v.data)
        | some (.usageF _) => .typeError
        | none => .ok r
      | none => .ok r
    | _ => .valueError
  else .ok r

/-- The replacement loop of `process_template`: a raised exception aborts the
remaining iterations. -/
def ptLoop (ctx : Context) (r : List Char) : List (List Char) → PTOut
  | [] => .ok r
  | p :: ps =>
    match phStep ctx r p with
    | .ok r' => ptLoop ctx r' ps
    | .valueError => .valueError
    | .typeError => .typeError

/-- `process_template(template, context)`. -/
def processTemplate (template : String) (ctx : Context) : PTOut :=
  ptLoop ctx template.data (findPH template.data)

/-- Whether the loop iteration for placeholder `p` raises an exception
(depends only on `p` and the context, not on the running result). -/
def phFails (ctx : Context) (p : List Char) : Bool :=
  if p = "input".data then
    match ctxGet ctx "input" with
    | some (.record _) => true
    | _ => false
  else if p.contains '.' then
    match splitDots p with
    | [a, b] =>
      match ctxGet ctx (String.mk a) with
      | some (.s v) => isSub b v.data
      | some (.record sr) =>
        match recFieldGet sr (String.mk b) with
        | some (.usageF _) => true
        | _ => false
      | none => false
    | _ => true
  else false

/-- Whether the loop iteration for placeholder `p` performs a replacement
(as opposed to silently skipping the placeholder). -/
def phResolves (ctx : Context) (p : List Char) : Bool :=
  if p = "input".data then
    match ctxGet ctx "input" with
    | some (.s _) => true
    | _ => false
  else if p.contains '.' then
    match splitDots p with
    | [a, b] =>
      match ctxGet ctx (String.mk a) with
      | some (.record sr) =>
        match recFieldGet sr (String.mk b) with
        | some (.strF _) => true
        | _ => false
      | _ => false
    | _ => false
  else false


/-- Trichotomy for one loop iteration of `process_template`: it raises, or
skips the placeholder (leaving the result unchanged), or replaces every
occurrence of the braced placeholder with some string value. -/
theorem phStep_cases (ctx : Context) (r p : List Char) :
    (phFails ctx p = true ∧
      (phStep ctx r p = .valueError ∨ phStep ctx r p = .typeError)) ∨
    (phFails ctx p = false ∧ phResolves ctx p = false ∧ phStep ctx r p = .ok r) ∨
    (phFails ctx p = false ∧ phResolves ctx p = true ∧
      ∃ v : String, phStep ctx r p = .ok (replaceAll r ('\x7b' :: p ++ ['\x7d']) v.data)) := by
  unfold phStep phFails phResolves
  by_cases hp : p = "input".data
  · simp only [hp, if_true]
    cases hg : ctxGet ctx "input" with
    | none => simp [hg]
    | some v =>
      cases v with
      | s w =>
        simp only [hg]
        right; right
        exact ⟨trivial, trivial, w, rfl⟩
      | record q => simp [hg]
  · by_cases hd : p.contains '.'
    · simp only [hp, if_false, hd, if_true]
      rcases hs : splitDots p with _ | ⟨a, _ | ⟨b, _ | ⟨c, t⟩⟩⟩
      · simp [hs]
      · simp [hs]
      · simp only [hs]
        cases hg : ctxGet ctx (String.mk a) with
        | none => simp [hg]
        | some v =>
          cases v with
          | s w => by_cases hsub : isSub b w.data <;> simp [hg, hsub]
          | record sr =>
            rcases hf : recFieldGet sr (String.mk b) with _ | f
            · simp [hg, hf]
            · cases f with
              | strF w =>
                simp only [hg, hf]
                right; right
                exact ⟨trivial, trivial, w, rfl⟩
              | usageF u => simp [hg, hf]
      · simp [hs]
    · simp only [hp, if_false, hd]
      simp

/-! ## Occurrence lemmas for `str.replace` -/

theorem isPre_iff (p : List Char) : ∀ s, isPre p s = true ↔ ∃ t, s = p ++ t := by
  induction p with
  | nil => intro s; simp [isPre]
  | cons x ps ih =>
    intro s
    cases s with
    | nil => simp [isPre]
    | cons c cs =>
      simp only [isPre, Bool.and_eq_true, decide_eq_true_eq, ih cs, List.cons_append]
      constructor
      · rintro ⟨rfl, t, rfl⟩
        exact ⟨t, rfl⟩
      · rintro ⟨t, h⟩
        injection h with h1 h2
        exact ⟨h1.symm ▸ rfl, t, h2⟩
  
theorem isSub_iff (pat : List Char) : ∀ s, isSub pat s = true ↔ ∃ a b, s = a ++ pat ++ b := by
  intro s
  induction s with
  | nil =>
    cases pat with
    | nil => simp [isSub, isPre]
    | cons x ps => simp [isSub, isPre]
  | cons c cs ih =>
    simp only [isSub, Bool.or_eq_true, isPre_iff, ih]
    constructor
    · rintro (⟨t, ht⟩ | ⟨a, b, hab⟩)
      · exact ⟨[], t, by simpa using ht⟩
      · exact ⟨c :: a, b, by simp [hab]⟩
    · rintro ⟨a, b, h⟩
      cases a with
      | nil => exact Or.inl ⟨b, by simpa using h⟩
      | cons y a' =>
        injection h with h1 h2
        exact Or.inr ⟨a', b, h2⟩

theorem isSub_cons (pat : List Char) (c : Char) (cs : List Char)
    (h : isSub pat cs = true) : isSub pat (c :: cs) = true := by
  simp [isSub, h]

theorem isSub_append_left (pat u : List Char) :
    ∀ t, isSub pat t = true → isSub pat (u ++ t) = true := by
  induction u with
  | nil => intro t h; simpa using h
  | cons c u' ih => intro t h; exact isSub_cons _ _ _ (ih t h)

theorem isSub_of_isPre (pat s : List Char) (h : isPre pat s = true) :
    isSub pat s = true := by
  cases s with
  | nil => simpa [isSub] using h
  | cons c cs => simp [isSub, h]

/-- Splitting a string along the closing `}` of a brace-free segment is
unambiguous. -/
theorem brace_seg_eq {p : List Char} (hp : '\x7d' ∉ p) :
    ∀ {q b t : List Char}, '\x7d' ∉ q →
      p ++ '\x7d' :: b = q ++ '\x7d' :: t → p = q ∧ b = t := by
  induction p with
  | nil =>
    intro q b t hq h
    cases q with
    | nil => simpa using h
    | cons y q' =>
      simp only [List.nil_append, List.cons_append] at h
      injection h with h1 h2
      exact absurd (List.mem_cons.mpr (Or.inl h1)) hq
  | cons x p' ih =>
    intro q b t hq h
    cases q with
    | nil =>
      simp only [List.cons_append, List.nil_append] at h
      injection h with h1 h2
      exact absurd (List.mem_cons.mpr (Or.inl h1.symm)) hp
    | cons y q' =>
      simp only [List.cons_append] at h
      injection h with h1 h2
      have := ih (fun hm => hp (List.mem_cons_of_mem x hm)) (fun hm => hq (List.mem_cons_of_mem y hm)) h2
      exact ⟨by rw [h1, this.1], this.2⟩

/-- Unfolding equation of `replaceAll` at a cons cell for a non-empty
pattern. -/
theorem replaceAll_cons_eq (c : Char) (cs pat rep : List Char) (hne : pat ≠ []) :
    replaceAll (c :: cs) pat rep =
      if isPre pat (c :: cs) = true then rep ++ replaceAll ((c :: cs).drop pat.length) pat rep
      else c :: replaceAll cs pat rep := by
  rw [replaceAll]
  simp [hne]

/-- `str.replace` with a pattern starting `{` copies a brace-free leading
segment of the string verbatim. -/
theorem replaceAll_front {u : List Char} (hu : '\x7b' ∉ u) (q rep : List Char) :
    ∀ w, replaceAll (u ++ w) ('\x7b' :: q) rep = u ++ replaceAll w ('\x7b' :: q) rep := by
  induction u with
  | nil => intro w; rfl
  | cons x u' ih =>
    intro w
    have hx : ¬('\x7b' : Char) = x := fun h => hu (List.mem_cons.mpr (Or.inl h))
    have hnp : isPre ('\x7b' :: q) (x :: (u' ++ w)) = false := by
      simp [isPre, hx]
    rw [List.cons_append, replaceAll_cons_eq _ _ _ _ (by simp), hnp]
    simp [ih (fun hm => hu (List.mem_cons_of_mem x hm)) w]

/-- When the pattern `{q}` (with `q` brace-free) matches at the start of the
string `a ++ '\x7b' :: w` and the leading `a` is non-trivial, the whole match
`{q}` is contained in `a`. -/
theorem qmatch_before {q : List Char} (hq : '\x7b' ∉ q) :
    ∀ (a w t : List Char), a ++ '\x7b' :: w = q ++ '\x7d' :: t →
      ∃ a', a = q ++ '\x7d' :: a' ∧ t = a' ++ '\x7b' :: w := by
  induction q with
  | nil =>
    intro a w t h
    cases a with
    | nil =>
      simp only [List.nil_append] at h
      injection h with h1
      exact absurd h1 (by decide)
    | cons y a' =>
      simp only [List.cons_append, List.nil_append] at h
      injection h with h1 h2
      exact ⟨a', by simp [h1], h2.symm⟩
  | cons c q' ih =>
    intro a w t h
    cases a with
    | nil =>
      simp only [List.nil_append, List.cons_append] at h
      injection h with h1 h2
      exact absurd (List.mem_cons.mpr (Or.inl h1)) hq
    | cons y a' =>
      simp only [List.cons_append] at h
      injection h with h1 h2
      obtain ⟨a'', e1, e2⟩ := ih (fun hm => hq (List.mem_cons_of_mem c hm)) a' w t h2
      exact ⟨a'', by simp [h1, e1], e2⟩

/-- Core preservation property of `str.replace`: replacing all occurrences of
the braced placeholder `{q}` cannot destroy an occurrence of a different
braced placeholder `{p}` when neither `p` nor `q` contains a brace. -/
theorem replaceAll_preserves {p q : List Char} (rep : List Char) (hpq : p ≠ q)
    (hp1 : '\x7b' ∉ p) (hp2 : '\x7d' ∉ p) (hq1 : '\x7b' ∉ q) (hq2 : '\x7d' ∉ q) :
    ∀ n s, s.length ≤ n → isSub ('\x7b' :: p ++ ['\x7d']) s = true →
      isSub ('\x7b' :: p ++ ['\x7d']) (replaceAll s ('\x7b' :: q ++ ['\x7d']) rep) = true := by
  intro n
  induction n with
  | zero =>
    intro s hlen hocc
    have hnil : s = [] := List.length_eq_zero.mp (Nat.le_zero.mp hlen)
    subst hnil
    simp [isSub, isPre] at hocc
  | succ n ih =>
    intro s hlen hocc
    obtain ⟨a, b, hs⟩ := (isSub_iff _ s).mp hocc
    cases a with
    | nil =>
      simp only [List.nil_append] at hs
      subst hs
      have hP : ('\x7b' :: p ++ ['\x7d']) ++ b = '\x7b' :: ((p ++ ['\x7d']) ++ b) := by
        simp
      have hnp : isPre ('\x7b' :: q ++ ['\x7d']) (('\x7b' :: p ++ ['\x7d']) ++ b) = false := by
        apply Bool.eq_false_iff.mpr
        intro hpre
        obtain ⟨t, ht⟩ := (isPre_iff _ _).mp hpre
        rw [hP] at ht
        have ht' : (p ++ ['\x7d']) ++ b = (q ++ ['\x7d']) ++ t := by
          have := ht
          simp only [List.cons_append] at this
          injection this
        simp only [List.append_assoc, List.singleton_append] at ht'
        exact hpq (brace_seg_eq hp2 hq2 ht').1
      rw [hP] at hnp ⊢
      rw [replaceAll_cons_eq _ _ _ _ (by simp), hnp]
      simp only [Bool.false_eq_true, if_false]
      have hufree : '\x7b' ∉ p ++ ['\x7d'] := by
        simp only [List.mem_append, List.mem_singleton]
        rintro (h | h)
        · exact hp1 h
        · exact absurd h (by decide)
      simp only [List.cons_append]
      rw [replaceAll_front hufree (q ++ ['\x7d']) rep b]
      apply isSub_of_isPre
      apply (isPre_iff _ _).mpr
      exact ⟨replaceAll b ('\x7b' :: q ++ ['\x7d']) rep, by simp⟩
    | cons x a' =>
      by_cases hm : isPre ('\x7b' :: q ++ ['\x7d']) s = true
      · obtain ⟨t, ht⟩ := (isPre_iff _ _).mp hm
        have hflat : a' ++ '\x7b' :: ((p ++ ['\x7d']) ++ b) = q ++ '\x7d' :: t := by
          have h0 : (x :: a') ++ ('\x7b' :: p ++ ['\x7d']) ++ b =
              ('\x7b' :: q ++ ['\x7d']) ++ t := by rw [← hs, ← ht]
          simp only [List.cons_append, List.append_assoc, List.singleton_append] at h0
          injection h0 with h1 h2
          simpa using h2
        obtain ⟨a'', e1, e2⟩ := qmatch_before hq1 a' _ t hflat
        rw [hs]
        have hQt : (x :: a') ++ ('\x7b' :: p ++ ['\x7d']) ++ b =
            ('\x7b' :: q ++ ['\x7d']) ++ t := by rw [← hs, ← ht]
        rw [hQt]
        have hQcons : ('\x7b' :: q ++ ['\x7d']) ++ t = '\x7b' :: ((q ++ ['\x7d']) ++ t) := by
          simp
        rw [hQcons, replaceAll_cons_eq _ _ _ _ (by simp)]
        have hpre' : isPre ('\x7b' :: q ++ ['\x7d']) ('\x7b' :: ((q ++ ['\x7d']) ++ t)) = true := by
          apply (isPre_iff _ _).mpr
          exact ⟨t, by simp⟩
        rw [hpre']
        simp only [if_true]
        have hdrop : ('\x7b' :: ((q ++ ['\x7d']) ++ t)).drop ('\x7b' :: q ++ ['\x7d']).length
            = t := by
          rw [← hQcons]
          exact List.drop_left _ _
        rw [hdrop]
        have htlen : t.length ≤ n := by
          have h1 : s.length = ('\x7b' :: q ++ ['\x7d']).length + t.length := by
            rw [ht, List.length_append]
          simp only [List.length_cons, List.length_append, List.length_singleton] at h1
          omega
        have htocc : isSub ('\x7b' :: p ++ ['\x7d']) t = true := by
          apply (isSub_iff _ _).mpr
          refine ⟨a'', b, ?_⟩
          rw [e2]
          simp
        exact isSub_append_left _ rep _ (ih t htlen htocc)
      · have hcons : s = x :: ((a' ++ ('\x7b' :: p ++ ['\x7d'])) ++ b) := by
          rw [hs]; simp
        rw [hcons]
        rw [replaceAll_cons_eq _ _ _ _ (by simp)]
        have hnp : isPre ('\x7b' :: q ++ ['\x7d']) (x :: ((a' ++ ('\x7b' :: p ++ ['\x7d'])) ++ b))
            = false := by
          apply Bool.eq_false_iff.mpr
          intro hpre
          exact hm (by rw [hcons]; exact hpre)
        rw [hnp]
        simp only [Bool.false_eq_true, if_false]
        have hlen' : ((a' ++ ('\x7b' :: p ++ ['\x7d'])) ++ b).length ≤ n := by
          have : s.length = ((a' ++ ('\x7b' :: p ++ ['\x7d'])) ++ b).length + 1 := by
            rw [hcons]; simp
          omega
        have hocc' : isSub ('\x7b' :: p ++ ['\x7d']) ((a' ++ ('\x7b' :: p ++ ['\x7d'])) ++ b)
            = true := by
          apply (isSub_iff _ _).mpr
          exact ⟨a', b, by simp⟩
        exact isSub_cons _ _ _ (ih _ hlen' hocc')

/-- Every placeholder found by the scan is `}`-free and occurs braced in the
template. -/
theorem findPH_mem : ∀ n l, l.length ≤ n → ∀ p, p ∈ findPH l →
    '\x7d' ∉ p ∧ isSub ('\x7b' :: p ++ ['\x7d']) l = true := by
  intro n
  induction n with
  | zero =>
    intro l hlen p hp
    have hnil : l = [] := List.length_eq_zero.mp (Nat.le_zero.mp hlen)
    subst hnil
    simp [findPH] at hp
  | succ n ih =>
    intro l hlen p hp
    cases l with
    | nil => simp [findPH] at hp
    | cons c rest =>
      rw [findPH] at hp
      by_cases hc : c = '\x7b'
      · simp only [hc, if_true] at hp
        cases htf : takeField rest with
        | some pr =>
          obtain ⟨f, rest'⟩ := pr
          rw [htf] at hp
          simp only at hp
          by_cases hf : f = []
          · simp only [hf, if_true] at hp
            have := ih rest (by simp at hlen; omega) p hp
            exact ⟨this.1, isSub_cons _ _ _ this.2⟩
          · simp only [hf, if_false] at hp
            obtain ⟨hsp, hnb⟩ := takeField_split rest f rest' htf
            rcases List.mem_cons.mp hp with hpf | hprest
            · subst hpf
              refine ⟨hnb, ?_⟩
              apply isSub_of_isPre
              apply (isPre_iff _ _).mpr
              refine ⟨rest', ?_⟩
              rw [hc, hsp]
              simp
            · have hlen' : rest'.length ≤ n := by
                have := takeField_len rest f rest' htf
                simp at hlen
                omega
              have := ih rest' hlen' p hprest
              refine ⟨this.1, ?_⟩
              have hdecomp : c :: rest = ('\x7b' :: (f ++ ['\x7d'])) ++ rest' := by
                rw [hc, hsp]
                simp
              rw [hdecomp]
              exact isSub_append_left _ _ _ this.2
        | none =>
          rw [htf] at hp
          simp only at hp
          have := ih rest (by simp at hlen; omega) p hp
          exact ⟨this.1, isSub_cons _ _ _ this.2⟩
      · simp only [hc, if_false] at hp
        have := ih rest (by simp at hlen; omega) p hp
        exact ⟨this.1, isSub_cons _ _ _ this.2⟩

/-- The replacement loop of `process_template` succeeds when no iteration
raises, and preserves the braced occurrence of any placeholder that never
resolves, provided all placeholders involved are brace-free. -/
theorem ptLoop_preserves (ctx : Context) (p0 : List Char)
    (hp01 : '\x7b' ∉ p0) (hp02 : '\x7d' ∉ p0) (hres : phResolves ctx p0 = false) :
    ∀ phs r, (∀ p, p ∈ phs → phFails ctx p = false) →
      (∀ p, p ∈ phs → '\x7b' ∉ p ∧ '\x7d' ∉ p) →
      isSub ('\x7b' :: p0 ++ ['\x7d']) r = true →
      ∃ r', ptLoop ctx r phs = .ok r' ∧ isSub ('\x7b' :: p0 ++ ['\x7d']) r' = true := by
  intro phs
  induction phs with
  | nil => intro r _ _ hocc; exact ⟨r, rfl, hocc⟩
  | cons p ps ih =>
    intro r hfail hfree hocc
    rcases phStep_cases ctx r p with ⟨hf, _⟩ | ⟨_, _, hstep⟩ | ⟨_, hresp, v, hstep⟩
    · rw [hfail p (List.mem_cons_self p ps)] at hf
      cases hf
    · rw [ptLoop, hstep]
      exact ih r (fun x hx => hfail x (List.mem_cons_of_mem p hx))
        (fun x hx => hfree x (List.mem_cons_of_mem p hx)) hocc
    · rw [ptLoop, hstep]
      have hocc' : isSub ('\x7b' :: p0 ++ ['\x7d'])
          (replaceAll r ('\x7b' :: p ++ ['\x7d']) v.data) = true := by
        by_cases hpq : p0 = p
        · subst hpq
          rw [hresp] at hres
          cases hres
        · exact replaceAll_preserves v.data hpq hp01 hp02
            (hfree p (List.mem_cons_self p ps)).1 (hfree p (List.mem_cons_self p ps)).2
            r.length r le_rfl hocc
      exact ih _ (fun x hx => hfail x (List.mem_cons_of_mem p hx))
        (fun x hx => hfree x (List.mem_cons_of_mem p hx)) hocc'

/-! ## `execute_step` (config_workflow.py lines 156-213)

The step executor resolves the prompt with `prompt_template.format(**context)`
— note: not with `process_template` — catching only `KeyError`; it then
dispatches on the `model` string, and either propagates the invoker's error
as `{"error": ..., "output": None}` or builds the success step record. -/

/-- Python `str(KeyError(k))`: the repr of the missing key. -/
def pyKeyRepr (n : String) : String :=
  "\x27" ++ n ++ "\x27"

inductive PyExn where
  | attrError
  | indexError
  | valueError
  | typeError
  | unmodeled
deriving DecidableEq

/-- Result of `execute_step`: a success record, a returned error record
`{"error": e, "output": None}`, or an uncaught exception. -/
inductive ExecOut where
  | ok (r : StepOk)
  | err (e : String)
  | exn (k : PyExn)
deriving DecidableEq

/-- Builds the return value of `execute_step` after the model call
(lines 196-213). -/
def stepFinish (cfgModel stepNm task : String) (resp : Outcome) : ExecOut :=
  match resp with
  | .failure e _ => .err e
  | .success text m usage =>
    .ok { output := text, text := text, model := cfgModel, model_info := m,
          usage := usage, step_name := stepNm, task := task }

/-- `execute_step(step_config, context)` over the provider oracles, returning
the outcome together with the trace of provider invocations it makes. -/
def executeStep (P : Providers) (cfg : StepCfg) (ctx : Context) : ExecOut × List Call :=
  let stepNm := cfg.name.getD "unnamed_step"
  let model := cfg.model.getD "chatgpt"
  let template := cfg.prompt_template.getD "\x7binput\x7d"
  let task := cfg.task.getD ("Step " ++ stepNm)
  match pyFormat template.data ctx with
  | .keyErr n => (.err ("Missing context variable: " ++ pyKeyRepr n), [])
  | .attrErr => (.exn .attrError, [])
  | .idxErr => (.exn .indexError, [])
  | .braceErr => (.exn .valueError, [])
  | .unmodeled => (.exn .unmodeled, [])
  | .ok promptChars =>
    let prompt := String.mk promptChars
    if model = "chatgpt" then
      let mt := cfg.model_params.maxTokens.getD 1000
      let tp := cfg.model_params.temperature.getD (7 / 10)
      (stepFinish model stepNm task (P.chatgpt prompt mt tp), [.chatgpt prompt mt tp])
    else if model = "claude" then
      let mt := cfg.model_params.maxTokens.getD 1000
      let tp := cfg.model_params.temperature.getD (7 / 10)
      (stepFinish model stepNm task (P.claude prompt mt tp), [.claude prompt mt tp])
    else if model = "web_search" then
      (stepFinish model stepNm task (P.webSearch prompt), [.webSearch prompt])
    else
      (.err ("Invalid model: " ++ model), [])

/-! ## `run_configurable_workflow` (config_workflow.py lines 277-400) -/

/-- The step configuration the runner builds for the `i`-th `ai_models`
entry (lines 339-345).  An `ai_models` entry without a `name` yields a step
config whose `model` key holds Python `None`, which fails every dispatch
comparison and renders as `"None"` in the error message; the embedding folds
that into the string `"None"` directly. -/
def aiStepCfg (i : Nat) (mc : ModelCfg) : StepCfg :=
  { name := some (stepName (i + 1)),
    model := some (mc.name.getD "None"),
    prompt_template := some "\x7binput\x7d",
    model_params := mc.parameters,
    task := some (mc.task.getD ("Step " ++ natString (i + 1))) }

inductive LoopOut where
  | err (e : String)
  | exn (k : PyExn)
  | done (ctx : Context) (names : List String)
deriving DecidableEq

/-- The `for i, model_config in enumerate(config['ai_models'])` loop
(lines 332-358): execute each step, abort on the first error, otherwise
insert the step record under `step_{i+1}` and rebind `input` to the step's
output. -/
def runAiLoop (P : Providers) : Context → List String → Nat → List ModelCfg →
    LoopOut × List Call
  | ctx, names, _, [] => (.done ctx names, [])
  | ctx, names, i, mc :: rest =>
    match executeStep P (aiStepCfg i mc) ctx with
    | (.ok r, t) =>
      let ctx' := ctxSet (ctxSet ctx (stepName (i + 1)) (.record r)) "input" (.s r.output)
      let out := runAiLoop P ctx' (names ++ [stepName (i + 1)]) (i + 1) rest
      (out.1, t ++ out.2)
    | (.err e, t) => (.err e, t)
    | (.exn k, t) => (.exn k, t)

/-- The aggregate handed to `handle_output` on the `ai_models` path
(lines 360-372): the final step's record (`{}` when the list is empty),
the ordered list of executed step names, and each step's record looked up
from the context. -/
structure FinalAgg where
  base : Option CtxVal
  steps : List String
  recs : List (String × Option CtxVal)
deriving DecidableEq

def mkAgg (ctx : Context) (names : List String) (n : Nat) : FinalAgg :=
  { base := ctxGet ctx (stepName n),
    steps := names,
    recs := names.map (fun s => (s, ctxGet ctx s)) }

/-- Result dict of a dict-level provider call (`call_chatgpt(input_result)`
etc.): a single outcome, or the combined per-file results dict produced for
directory input with the `individual` strategy. -/
inductive DictResult where
  | single (o : Outcome)
  | directory (results : List (String × Outcome)) (dirPath : String)
deriving DecidableEq

/-- Result of `run_configurable_workflow`: an error dict, an uncaught
exception, or the aggregate handed to `handle_output` (output rendering is
the out-of-scope collaborator, so the run is modelled up to that hand-off). -/
inductive RunOut where
  | err (e : String)
  | exn (k : PyExn)
  | doneAi (agg : FinalAgg) (formatType : String)
  | doneSingle (res : DictResult) (formatType : String)
deriving DecidableEq

/-- The `'ai_models' in config` branch of `run_configurable_workflow`
(lines 327-374), starting from the already-resolved input text. -/
def runAiModels (P : Providers) (inputText : String) (models : List ModelCfg)
    (fmt : String) : RunOut × List Call :=
  match runAiLoop P [("input", CtxVal.s inputText)] [] 0 models with
  | (.err e, t) => (.err e, t)
  | (.exn k, t) => (.exn k, t)
  | (.done ctx names, t) => (.doneAi (mkAgg ctx names models.length) fmt, t)

/-! ## Input resolution (`get_input_from_config`, `process_input`) -/

/-- The successful result dict of `process_input` as consumed downstream:
its `text`, `source`, and (for directory input) the per-file contents and
processing strategy. -/
structure InputResult where
  text : Option String
  source : String
  files : Option (List (String × String))
  strategy : Option String
  dirPath : Option String
deriving DecidableEq

inductive InputOut where
  | err (e : String)
  | ok (ir : InputResult)
deriving DecidableEq

/-- The filesystem-touching collaborators of `process_input`
(`input_handler.py`): reading a file and collecting a directory.  These are
external boundaries per the spec and are therefore oracles. -/
structure ExtColl where
  readFileInput : String → InputOut
  readDirInput : String → String → Bool → String → InputOut

/-- `process_input(input_text, input_file, input_directory, ...)`
(`input_handler.py` lines 182-219): directory beats file beats text; no
input or whitespace-only text is an error. -/
def processInput (ext : ExtColl) (t f d : Option String) (pat : String)
    (rcv : Bool) (strat : String) : InputOut :=
  match d with
  | some dp => ext.readDirInput dp pat rcv strat
  | none =>
    match f with
    | some fp => ext.readFileInput fp
    | none =>
      match t with
      | none => .err "No input provided"
      | some tx =>
        if tx.data.all isPySpace then .err "Empty input provided"
        else .ok { text := some tx, source := "text", files := none,
                   strategy := none, dirPath := none }

/-- Rendering of a Python optional value in an f-string (`None` or the
string itself), for error messages such as `Invalid input type: None`. -/
def pyShowOpt : Option String → String
  | none => "None"
  | some s => s

/-- The `input` object of a configuration (`config.get('input', {})`);
all keys optional. -/
structure InputCfg where
  itype : Option String
  value : Option String
  path : Option String
  file_pattern : Option String
  recursive : Option Bool
  processing_strategy : Option String
deriving DecidableEq

structure ModelTypeCfg where
  mtype : Option String
deriving DecidableEq

structure OutputCfg where
  otype : Option String
  path : Option String
  format : Option String
deriving DecidableEq

/-- A workflow configuration object.  `steps` is part of the documented
format (printed by the repository's own `test_config_loader.py`), and is
carried here precisely so that theorems can state what
`run_configurable_workflow` does with it. -/
structure Config where
  name : Option String
  description : Option String
  input : InputCfg
  steps : Option (List StepCfg)
  ai_models : Option (List ModelCfg)
  model : ModelTypeCfg
  output : OutputCfg
deriving DecidableEq

/-- The CLI-argument parameters of `run_configurable_workflow` that feed
input resolution. -/
structure CliArgs where
  input : Option String
  inputFile : Option String
  inputDir : Option String
  filePattern : String
  recursive : Bool
  processingStrategy : String
  webSearch : Option String
deriving DecidableEq

/-- All-default CLI arguments (no overrides). -/
def cliNone : CliArgs :=
  { input := none, inputFile := none, inputDir := none, filePattern := "*.txt",
    recursive := false, processingStrategy := "individual", webSearch := none }

/-- `get_input_from_config(config, ...)` (config_workflow.py lines 74-127). -/
def getInputFromConfig (ext : ExtColl) (config : Config) (cli : CliArgs) : InputOut :=
  match cli.webSearch with
  | some q =>
    .ok { text := some q, source := "web_search_query", files := none,
          strategy := none, dirPath := none }
  | none =>
    if cli.input.isSome || cli.inputFile.isSome || cli.inputDir.isSome then
      processInput ext cli.input cli.inputFile cli.inputDir cli.filePattern
        cli.recursive cli.processingStrategy
    else
      let ic := config.input
      if ic.itype = some "text" then
        processInput ext (some (ic.value.getD "")) none none "*.txt" false "individual"
      else if ic.itype = some "file" then
        processInput ext none (some (ic.path.getD "")) none "*.txt" false "individual"
      else if ic.itype = some "directory" then
        processInput ext none none (some (ic.path.getD "")) (ic.file_pattern.getD "*.txt")
          (ic.recursive.getD false) (ic.processing_strategy.getD "individual")
      else
        .err ("Invalid input type: " ++ pyShowOpt ic.itype)

/-- `call_chatgpt(input_result)` with a dict argument
(`chatgpt_client.py` lines 50-88): directory input with the `individual`
strategy fans out one call per file; everything else is a single call with
the extracted text and the client's defaults (`max_tokens=1000`,
`temperature=0.7`). -/
def callChatgptDict (P : Providers) (ir : InputResult) : DictResult × List Call :=
  if ir.source = "directory" ∧ ir.files.isSome ∧ ir.strategy = some "individual" then
    let fs := ir.files.getD []
    (.directory (fs.map (fun fc => (fc.1, P.chatgpt fc.2 1000 (7 / 10))))
       (ir.dirPath.getD "unknown"),
     fs.map (fun fc => .chatgpt fc.2 1000 (7 / 10)))
  else
    (.single (P.chatgpt (ir.text.getD "") 1000 (7 / 10)),
     [.chatgpt (ir.text.getD "") 1000 (7 / 10)])

/-- `call_claude(input_result)` with a dict argument (`claude_client.py`),
same structure as `callChatgptDict`. -/
def callClaudeDict (P : Providers) (ir : InputResult) : DictResult × List Call :=
  if ir.source = "directory" ∧ ir.files.isSome ∧ ir.strategy = some "individual" then
    let fs := ir.files.getD []
    (.directory (fs.map (fun fc => (fc.1, P.claude fc.2 1000 (7 / 10))))
       (ir.dirPath.getD "unknown"),
     fs.map (fun fc => .claude fc.2 1000 (7 / 10)))
  else
    (.single (P.claude (ir.text.getD "") 1000 (7 / 10)),
     [.claude (ir.text.getD "") 1000 (7 / 10)])

/-- `call_web_search(input_result)` with a dict argument
(`web_search_client.py` lines 43-53 plus the oracle for the call loop):
an empty extracted query short-circuits to an error outcome with no
invocation. -/
def callWebDict (P : Providers) (ir : InputResult) : DictResult × List Call :=
  let q := ir.text.getD ""
  if q = "" then
    (.single (.failure "Empty search query" "Error: Empty search query"), [])
  else
    (.single (P.webSearch q), [.webSearch q])

/-- Whether a dict-level call result contains an `"error"` key (the check on
lines 350 and 394; the combined directory results dict has no such key). -/
def dictHasError : DictResult → Option String
  | .single (.failure e _) => some e
  | .single (.success _ _ _) => none
  | .directory _ _ => none

/-- `run_configurable_workflow(config, ...)` (lines 277-400), up to the
hand-off to `handle_output`.  Note that the `steps` key of the configuration
is never consulted: only `ai_models` selects the multi-step path, and any
other configuration falls through to a single default-model call. -/
def runConfigurableWorkflow (ext : ExtColl) (P : Providers) (config : Config)
    (cli : CliArgs) (formatType : String) : RunOut × List Call :=
  match getInputFromConfig ext config cli with
  | .err e => (.err e, [])
  | .ok ir =>
    let cfgFmt := config.output.format.getD "text"
    let fmt := if formatType = "" ∨ formatType = "text" then cfgFmt else formatType
    match config.ai_models with
    | some models => runAiModels P (ir.text.getD "") models fmt
    | none =>
      let mtype := if cli.webSearch.isSome then "web_search"
                   else config.model.mtype.getD "chatgpt"
      if mtype = "chatgpt" then
        let res := callChatgptDict P ir
        match dictHasError res.1 with
        | some e => (.err e, res.2)
        | none => (.doneSingle res.1 fmt, res.2)
      else if mtype = "claude" then
        let res := callClaudeDict P ir
        match dictHasError res.1 with
        | some e => (.err e, res.2)
        | none => (.doneSingle res.1 fmt, res.2)
      else if mtype = "web_search" then
        let res := callWebDict P ir
        match dictHasError res.1 with
        | some e => (.err e, res.2)
        | none => (.doneSingle res.1 fmt, res.2)
      else
        (.err ("Invalid model type: " ++ mtype), [])

/-! ## `process_single_input` (workflow.py lines 45-122): the legacy path,
including the two-call `claude-first` pseudo-model. -/

/-- The success result dict of `process_single_input`; `sourceInfo` carries
the merged `source_info` entries (its keys are metadata keys disjoint from
the result's own in every caller). -/
structure PSIOk where
  result : String
  model : String
  input_source : Option String
  model_info : String
  usage : List (String × Nat)
  sourceInfo : List (String × String)
  claude_response : Option String
deriving DecidableEq

inductive PSIOut where
  | err (e : String)
  | ok (r : PSIOk)
deriving DecidableEq

/-- The fixed instruction phrase wrapped around Claude's output before the
ChatGPT call of the `claude-first` path (workflow.py line 88). -/
def wrapClaude (t : String) : String :=
  "Here\x27s an analysis from another AI assistant: " ++ t ++
    "\n\nPlease review and refine this analysis."

def assocGet (l : List (String × String)) (k : String) : Option String :=
  match l.find? (fun kv => kv.1 = k) with
  | some kv => some kv.2
  | none => none

/-- Builds the final result dict of `process_single_input` (lines 98-122)
from the (possibly `claude_response`-enriched) model response. -/
def psiFinish (model : String) (resp : Outcome) (claudeTxt : Option String)
    (sourceInfo : Option (List (String × String))) : PSIOut :=
  match resp with
  | .failure e _ => .err e
  | .success t m u =>
    .ok { result := t, model := model,
          input_source := match sourceInfo with
                          | none => some "unknown"
                          | some si => assocGet si "source",
          model_info := m, usage := u, sourceInfo := sourceInfo.getD [],
          claude_response := claudeTxt }

/-- `process_single_input(input_content, model, max_tokens, temperature,
source_info)` over the provider oracles, with its invocation trace. -/
def processSingleInput (P : Providers) (content : String) (model : String)
    (maxTokens : Nat) (temp : Rat) (sourceInfo : Option (List (String × String))) :
    PSIOut × List Call :=
  if model = "chatgpt" then
    (psiFinish model (P.chatgpt content maxTokens temp) none sourceInfo,
     [.chatgpt content maxTokens temp])
  else if model = "claude" then
    (psiFinish model (P.claude content maxTokens temp) none sourceInfo,
     [.claude content maxTokens temp])
  else if model = "web_search" then
    (psiFinish model (P.webSearch content) none sourceInfo, [.webSearch content])
  else if model = "claude-first" then
    match P.claude content maxTokens temp with
    | .failure e _ => (.err e, [.claude content maxTokens temp])
    | .success ctext _ _ =>
      let prompt := wrapClaude ctext
      let resp := P.chatgpt prompt maxTokens temp
      (psiFinish model resp
         (match resp with
          | .failure _ _ => none
          | .success _ _ _ => some ctext) sourceInfo,
       [.claude content maxTokens temp, .chatgpt prompt maxTokens temp])
  else
    (.err ("Invalid model: " ++ model), [])

/-! ## Retry loops of the provider clients

`call_chatgpt_single` (chatgpt_client.py lines 90-175) and
`call_web_search` (web_search_client.py lines 27-114).  The body of the
`try` block — one API request and response extraction — is the `attempt`
oracle, indexed by how many attempts have already been made; it either
yields the response payload or raises with a message. -/

inductive Try where
  | ok (text : String) (usage : List (String × Nat))
  | exn (msg : String)
deriving DecidableEq

/-- The fixed transient-error indicators (both clients, identical list). -/
def transientInd : List String :=
  ["timeout", "rate limit", "server error", "503", "429"]

/-- `any(t in error_message.lower() for t in [...])`. -/
def isTransient (msg : String) : Bool :=
  transientInd.any (fun ind => isSub ind.data (msg.data.map lowerCh))

/-- The `while retry_count <= max_retries` loop of `call_chatgpt_single`,
returning the outcome, the total number of invocation attempts made, and the
list of back-off sleeps performed. -/
def cgLoop (attempt : Nat → Try) (model : String) (maxRetries : Nat)
    (retryDelay : Rat) (rc : Nat) (sleeps : List Rat) : Outcome × Nat × List Rat :=
  if rc ≤ maxRetries then
    match attempt rc with
    | .ok text usage => (.success text model usage, rc + 1, sleeps)
    | .exn msg =>
      if isTransient msg ∧ rc + 1 ≤ maxRetries then
        cgLoop attempt model maxRetries retryDelay (rc + 1)
          (sleeps ++ [retryDelay * 2 ^ rc])
      else
        (.failure msg "Sorry, I encountered an error while processing your request.",
         rc + 1, sleeps)
  else
    (.failure "Maximum retries exceeded"
       "Sorry, I encountered an error while processing your request.", rc, sleeps)
termination_by maxRetries + 1 - rc
decreasing_by
  rename_i h _
  omega

/-- `call_chatgpt_single(prompt, model, ..., max_retries, retry_delay)`. -/
def callChatgptSingle (attempt : Nat → Try) (model : String) (maxRetries : Nat)
    (retryDelay : Rat) : Outcome × Nat × List Rat :=
  cgLoop attempt model maxRetries retryDelay 0 []

/-- Query argument of `call_web_search`: a plain string or a dict. -/
inductive WQuery where
  | str (s : String)
  | dict (text : Option String) (source : Option String)
deriving DecidableEq

/-- Success/error result dict of `call_web_search`. -/
inductive WSRes where
  | ok (text query source : String) (usage : List (String × Nat))
  | err (error text : String)
deriving DecidableEq

/-- The retry loop of `call_web_search` (lines 55-114). -/
def wsLoop (attempt : Nat → Try) (maxRetries : Nat) (retryDelay : Rat)
    (query source : String) (rc : Nat) (sleeps : List Rat) : WSRes × Nat × List Rat :=
  if rc ≤ maxRetries then
    match attempt rc with
    | .ok text usage => (.ok text query source usage, rc + 1, sleeps)
    | .exn msg =>
      if isTransient msg ∧ rc + 1 ≤ maxRetries then
        wsLoop attempt maxRetries retryDelay query source (rc + 1)
          (sleeps ++ [retryDelay * 2 ^ rc])
      else
        (.err msg ("Error performing web search: " ++ msg), rc + 1, sleeps)
  else
    (.err "Maximum retries exceeded"
       "Error performing web search: Maximum retries exceeded", rc, sleeps)
termination_by maxRetries + 1 - rc
decreasing_by
  rename_i h _
  omega

/-- `call_web_search(query, max_retries, retry_delay)`: extract the query
text (dict `get("text", "")` or the string itself), reject an empty query
before any attempt, then run the retry loop. -/
def callWebSearch (attempt : Nat → Try) (query : WQuery) (maxRetries : Nat)
    (retryDelay : Rat) : WSRes × Nat × List Rat :=
  let qs : String × String :=
    match query with
    | .dict t s => (t.getD "", s.getD "unknown")
    | .str s => (s, "direct")
  if qs.1 = "" then
    (.err "Empty search query" "Error: Empty search query", 0, [])
  else
    wsLoop attempt maxRetries retryDelay qs.1 qs.2 0 []

/-! ## Context and runner lemmas -/

theorem ctxGet_ctxSet_self : ∀ (ctx : Context) (k : String) (v : CtxVal),
    ctxGet (ctxSet ctx k v) k = some v := by
  intro ctx k v
  induction ctx with
  | nil => simp [ctxSet, ctxGet]
  | cons kv rest ih =>
    obtain ⟨k', v'⟩ := kv
    by_cases hk : k' = k
    · simp [ctxSet, hk, ctxGet]
    · simp [ctxSet, hk, ctxGet, ih]

theorem ctxKeys_ctxSet : ∀ (ctx : Context) (k : String) (v : CtxVal) (s : String),
    s ∈ ctxKeys (ctxSet ctx k v) → s ∈ ctxKeys ctx ∨ s = k := by
  intro ctx k v s
  induction ctx with
  | nil => simp [ctxSet, ctxKeys]
  | cons kv rest ih =>
    obtain ⟨k', v'⟩ := kv
    by_cases hk : k' = k
    · simp only [ctxSet, hk, if_true, ctxKeys, List.map_cons, List.mem_cons]
      rintro (h | h)
      · exact Or.inr h
      · exact Or.inl (by simp [ctxKeys] at h ⊢; exact Or.inr h)
    · simp only [ctxSet, hk, if_false, ctxKeys, List.map_cons, List.mem_cons]
      rintro (h | h)
      · exact Or.inl (Or.inl h)
      · rcases ih h with h' | h'
        · exact Or.inl (Or.inr (by simpa [ctxKeys] using h'))
        · exact Or.inr h'

/-- `str.format` on the template `{input}` resolves to the bound input
string. -/
theorem pyFormat_input (ctx : Context) (v : String)
    (h : ctxGet ctx "input" = some (.s v)) :
    pyFormat "\x7binput\x7d".data ctx = .ok v.data := by
  simp [pyFormat, pyFormatGo, takeField, evalField, splitName, isDigitCh, h]

/-- `execute_step` on a step whose model string is unrecognized returns the
`Invalid model` error record without any invocation, provided the template
is the runner's `{input}` and the input is bound (lines 192-194). -/
theorem executeStep_invalid (P : Providers) (cfg : StepCfg) (ctx : Context)
    (v : String) (m : String)
    (hc : ctxGet ctx "input" = some (.s v))
    (htpl : cfg.prompt_template = some "\x7binput\x7d")
    (hm : cfg.model = some m)
    (h1 : m ≠ "chatgpt") (h2 : m ≠ "claude") (h3 : m ≠ "web_search") :
    executeStep P cfg ctx = (.err ("Invalid model: " ++ m), []) := by
  unfold executeStep
  rw [htpl, hm]
  simp only [Option.getD_some]
  rw [pyFormat_input ctx v hc]
  simp [h1, h2, h3]

/-- Appending to the model list runs the loop over the first part and, when
it completes, continues over the second with the shifted index. -/
theorem runAiLoop_append (P : Providers) :
    ∀ (l1 l2 : List ModelCfg) (ctx : Context) (names : List String) (i : Nat),
    runAiLoop P ctx names i (l1 ++ l2) =
      match runAiLoop P ctx names i l1 with
      | (.done ctx' names', t) =>
        ((runAiLoop P ctx' names' (i + l1.length) l2).1,
         t ++ (runAiLoop P ctx' names' (i + l1.length) l2).2)
      | (.err e, t) => (.err e, t)
      | (.exn k, t) => (.exn k, t) := by
  intro l1
  induction l1 with
  | nil =>
    intro l2 ctx names i
    simp [runAiLoop]
  | cons mc l1' ih =>
    intro l2 ctx names i
    rw [List.cons_append, runAiLoop, runAiLoop]
    cases hex : executeStep P (aiStepCfg i mc) ctx with
    | mk res t =>
      cases res with
      | ok r =>
        simp only
        rw [ih]
        have harith : i + 1 + l1'.length = i + (l1'.length + 1) := by omega
        cases hB : runAiLoop P
            (ctxSet (ctxSet ctx (stepName (i + 1)) (.record r)) "input" (.s r.output))
            (names ++ [stepName (i + 1)]) (i + 1) l1' with
        | mk res' t' =>
          cases res' with
          | done c2 n2 =>
            simp only [harith, List.length_cons]
            simp [List.append_assoc]
          | err e => simp
          | exn k => simp
      | err e => simp
      | exn k => simp

/-- Invariant of a completed loop run: every key of the final context was
already a key of the starting context, or is `input`, or is the generated
name `step_j` of one of the executed steps; moreover the `input` key keeps
holding a plain string. -/
theorem runAiLoop_done_inv :
    ∀ (models : List ModelCfg) (P : Providers) (ctx : Context) (names : List String)
      (i : Nat) (ctx' : Context) (ns : List String) (t : List Call),
    runAiLoop P ctx names i models = (.done ctx' ns, t) →
    (∀ s, s ∈ ctxKeys ctx' → s ∈ ctxKeys ctx ∨ s = "input" ∨
      ∃ j, i + 1 ≤ j ∧ j ≤ i + models.length ∧ s = stepName j) ∧
    (∀ v, ctxGet ctx "input" = some (.s v) → ∃ w, ctxGet ctx' "input" = some (.s w)) := by
  intro models
  induction models with
  | nil =>
    intro P ctx names i ctx' ns t h
    simp only [runAiLoop, Prod.mk.injEq, LoopOut.done.injEq] at h
    obtain ⟨⟨h1, h2⟩, h3⟩ := h
    subst h1
    exact ⟨fun s hs => Or.inl hs, fun v hv => ⟨v, hv⟩⟩
  | cons mc rest ih =>
    intro P ctx names i ctx' ns t h
    rw [runAiLoop] at h
    cases hex : executeStep P (aiStepCfg i mc) ctx with
    | mk res tr =>
      rw [hex] at h
      cases res with
      | ok r =>
        simp only at h
        have hrec := ih P
          (ctxSet (ctxSet ctx (stepName (i + 1)) (.record r)) "input" (.s r.output))
          (names ++ [stepName (i + 1)]) (i + 1) ctx' ns
          (runAiLoop P (ctxSet (ctxSet ctx (stepName (i + 1)) (.record r)) "input"
            (.s r.output)) (names ++ [stepName (i + 1)]) (i + 1) rest).2
        have heq : runAiLoop P
            (ctxSet (ctxSet ctx (stepName (i + 1)) (.record r)) "input" (.s r.output))
            (names ++ [stepName (i + 1)]) (i + 1) rest = (.done ctx' ns,
          (runAiLoop P (ctxSet (ctxSet ctx (stepName (i + 1)) (.record r)) "input"
            (.s r.output)) (names ++ [stepName (i + 1)]) (i + 1) rest).2) := by
          cases hl : runAiLoop P
              (ctxSet (ctxSet ctx (stepName (i + 1)) (.record r)) "input" (.s r.output))
              (names ++ [stepName (i + 1)]) (i + 1) rest with
          | mk res2 t2 =>
            rw [hl] at h
            cases res2 with
            | done c2 n2 =>
              simp only [Prod.mk.injEq, LoopOut.done.injEq] at h ⊢
              exact ⟨⟨h.1.1, h.1.2⟩, trivial⟩
            | err e => simp at h
            | exn k => simp at h
        obtain ⟨hkeys, hinp⟩ := hrec heq
        constructor
        · intro s hs
          rcases hkeys s hs with hk | hk | ⟨j, hj1, hj2, hj3⟩
          · rcases ctxKeys_ctxSet _ _ _ _ hk with hk' | hk'
            · rcases ctxKeys_ctxSet _ _ _ _ hk' with hk'' | hk''
              · exact Or.inl hk''
              · exact Or.inr (Or.inr ⟨i + 1, le_rfl, by simp, hk''⟩)
            · exact Or.inr (Or.inl hk')
          · exact Or.inr (Or.inl hk)
          · exact Or.inr (Or.inr ⟨j, by omega, by simp [List.length_cons]; omega, hj3⟩)
        · intro v hv
          exact hinp r.output (ctxGet_ctxSet_self _ _ _)
      | err e => simp at h
      | exn k => simp at h

/-- Helper: when the loop completes over a leading segment and the next step
returns an error record, the whole `ai_models` run returns exactly that error
with the trace of the completed steps plus the failing step only. -/
theorem runAiModels_step_err (P : Providers) (t0 fmt : String)
    (pre : List ModelCfg) (mk : ModelCfg) (post : List ModelCfg)
    (ctx' : Context) (ns : List String) (tpre : List Call) (e : String)
    (tk : List Call)
    (h1 : runAiLoop P [("input", CtxVal.s t0)] [] 0 pre = (.done ctx' ns, tpre))
    (h2 : executeStep P (aiStepCfg pre.length mk) ctx' = (.err e, tk)) :
    runAiModels P t0 (pre ++ mk :: post) fmt = (.err e, tpre ++ tk) := by
  unfold runAiModels
  rw [runAiLoop_append, h1]
  simp only [Nat.zero_add]
  rw [runAiLoop, h2]

/-- Helper: the replacement loop of `process_template` returns a string when
no iteration raises. -/
theorem ptLoop_total (ctx : Context) :
    ∀ phs r, (∀ p, p ∈ phs → phFails ctx p = false) →
      ∃ r', ptLoop ctx r phs = .ok r' := by
  intro phs
  induction phs with
  | nil => intro r _; exact ⟨r, rfl⟩
  | cons p ps ih =>
    intro r hfail
    rcases phStep_cases ctx r p with ⟨hf, _⟩ | ⟨_, _, hstep⟩ | ⟨_, _, v, hstep⟩
    · rw [hfail p (List.mem_cons_self p ps)] at hf
      cases hf
    · rw [ptLoop, hstep]
      exact ih r (fun x hx => hfail x (List.mem_cons_of_mem p hx))
    · rw [ptLoop, hstep]
      exact ih _ (fun x hx => hfail x (List.mem_cons_of_mem p hx))

/-! ## Stub collaborators for concrete witnesses -/

/-- Providers on which every call succeeds. -/
def stubP : Providers :=
  { chatgpt := fun _ _ _ => .success "chatgpt-out" "gpt-3.5-turbo" [("total_tokens", 7)],
    claude := fun _ _ _ => .success "claude-out" "claude-3-sonnet-20240229" [],
    webSearch := fun q => .success ("results: " ++ q) "web_search" [] }

/-- Providers on which Claude fails and the rest succeed. -/
def stubClaudeErr : Providers :=
  { chatgpt := fun _ _ _ => .success "chatgpt-out" "gpt-3.5-turbo" [],
    claude := fun _ _ _ => .failure "boom" "Sorry, I encountered an error while processing your request.",
    webSearch := fun q => .success ("results: " ++ q) "web_search" [] }

/-- External input collaborators that are never consulted by the text-input
scenarios below. -/
def noExt : ExtColl :=
  { readFileInput := fun _ => .err "unused",
    readDirInput := fun _ _ _ _ => .err "unused" }

/-! ## Claims -/

/-- C8: for every attempt behaviour in which each invocation attempt raises
a transient-classified error, `call_chatgpt_single` with `max_retries = 2`
makes exactly 3 invocation attempts (1 initial + 2 retries), sleeping the
exponential back-off schedule in between, and returns the terminal
`{error, text}` outcome. -/
theorem c8_retry_budget (attempt : Nat → Try) (model : String) (d : Rat)
    (h : ∀ n, ∃ e, attempt n = .exn e ∧ isTransient e = true) :
    ∃ e, callChatgptSingle attempt model 2 d =
      (.failure e "Sorry, I encountered an error while processing your request.", 3,
       [d * 2 ^ 0, d * 2 ^ 1]) := by
  obtain ⟨e0, h0, t0⟩ := h 0
  obtain ⟨e1, h1, t1⟩ := h 1
  obtain ⟨e2, h2, t2⟩ := h 2
  refine ⟨e2, ?_⟩
  unfold callChatgptSingle
  rw [cgLoop, h0]
  simp only [t0, show (0 : Nat) ≤ 2 by decide, if_true, true_and,
    show (0 + 1 : Nat) ≤ 2 by decide, if_true]
  rw [cgLoop, h1]
  simp only [t1, show (1 : Nat) ≤ 2 by decide, if_true, true_and,
    show (1 + 1 : Nat) ≤ 2 by decide, if_true]
  rw [cgLoop, h2]
  simp only [t2, show (2 : Nat) ≤ 2 by decide, if_true, true_and]
  simp

theorem c8_witness :
    ∃ e, callChatgptSingle (fun _ => .exn "timeout") "gpt-3.5-turbo" 2 1 =
      (.failure e "Sorry, I encountered an error while processing your request.", 3,
       [1 * 2 ^ 0, 1 * 2 ^ 1]) :=
  c8_retry_budget (fun _ => .exn "timeout") "gpt-3.5-turbo" 1
    (fun _ => ⟨"timeout", rfl, by simp [isTransient, transientInd, isSub, isPre, lowerCh]⟩)

/-- C9: the `claude-first` legacy path of `process_single_input` invokes
Claude first; when Claude returns an error outcome, no ChatGPT call is made
and Claude's error is returned; when Claude succeeds, exactly the two calls
Claude-then-ChatGPT occur, the second with Claude's text wrapped in the
fixed instruction phrase. -/
theorem c9_claude_first (P : Providers) (content : String) (mt : Nat) (tp : Rat)
    (si : Option (List (String × String))) :
    (∀ e ft, P.claude content mt tp = .failure e ft →
      processSingleInput P content "claude-first" mt tp si =
        (.err e, [.claude content mt tp])) ∧
    (∀ t m u, P.claude content mt tp = .success t m u →
      (processSingleInput P content "claude-first" mt tp si).2 =
        [.claude content mt tp, .chatgpt (wrapClaude t) mt tp]) := by
  constructor
  · intro e ft hf
    unfold processSingleInput
    rw [if_neg (by decide), if_neg (by decide), if_neg (by decide), if_pos rfl, hf]
  · intro t m u hs
    unfold processSingleInput
    rw [if_neg (by decide), if_neg (by decide), if_neg (by decide), if_pos rfl, hs]

theorem c9_witness :
    processSingleInput stubClaudeErr "hi" "claude-first" 1000 (7 / 10) none =
      (.err "boom", [.claude "hi" 1000 (7 / 10)]) ∧
    (processSingleInput stubP "hi" "claude-first" 1000 (7 / 10) none).2 =
      [.claude "hi" 1000 (7 / 10), .chatgpt (wrapClaude "claude-out") 1000 (7 / 10)] :=
  ⟨(c9_claude_first stubClaudeErr "hi" 1000 (7 / 10) none).1 "boom"
      "Sorry, I encountered an error while processing your request." rfl,
   (c9_claude_first stubP "hi" 1000 (7 / 10) none).2 "claude-out"
      "claude-3-sonnet-20240229" [] rfl⟩

/-- C10: `call_web_search` on an empty query — the empty string, or a dict
whose `text` entry is absent or empty — returns the `{error, text}` outcome
immediately: zero invocation attempts, no sleeps. -/
theorem c10_empty_query (attempt : Nat → Try) (mr : Nat) (rd : Rat) (q : WQuery)
    (h : q = .str "" ∨ (∃ src, q = .dict none src) ∨ (∃ src, q = .dict (some "") src)) :
    callWebSearch attempt q mr rd =
      (.err "Empty search query" "Error: Empty search query", 0, []) := by
  rcases h with rfl | ⟨src, rfl⟩ | ⟨src, rfl⟩ <;> simp [callWebSearch]

theorem c10_witness :
    callWebSearch (fun _ => .exn "boom") (.str "") 3 1 =
      (.err "Empty search query" "Error: Empty search query", 0, []) ∧
    callWebSearch (fun _ => .exn "boom") (.dict none (some "text")) 3 1 =
      (.err "Empty search query" "Error: Empty search query", 0, []) :=
  ⟨c10_empty_query (fun _ => .exn "boom") 3 1 (.str "") (Or.inl rfl),
   c10_empty_query (fun _ => .exn "boom") 3 1 (.dict none (some "text"))
     (Or.inr (Or.inl ⟨some "text", rfl⟩))⟩

/-- A successful step record for `s1` with output `"X"`, as `execute_step`
would produce it. -/
def sampleRec : StepOk :=
  { output := "X", text := "X", model := "chatgpt", model_info := "gpt-3.5-turbo",
    usage := [], step_name := "s1", task := "Step s1" }

/-- Context after step `s1` succeeded with output `"X"`. -/
def ctxS1 : Context :=
  [("input", CtxVal.s "X"), ("s1", CtxVal.record sampleRec)]

/-- The second step of the spec's chained-templating scenario. -/
def cfgS2 : StepCfg :=
  { name := some "s2", model := some "chatgpt",
    prompt_template := some "Review: \x7bs1.output\x7d",
    model_params := { maxTokens := none, temperature := none }, task := none }

/-- C4 (code bug): on the documented chained template `Review: {s1.output}`
with `s1` bound to a successful record with output `"X"`, `execute_step`
does not resolve the prompt to `"Review: X"`; its `str.format` call
attribute-accesses the record dict and raises an uncaught `AttributeError`,
so no prompt reaches the model invoker.  The module's own (unused)
`process_template` resolves the same template to exactly `"Review: X"`,
which is the documented behaviour. -/
theorem c4_chained_template (P : Providers) :
    executeStep P cfgS2 ctxS1 = (.exn .attrError, []) ∧
    processTemplate "Review: \x7bs1.output\x7d" ctxS1 = .ok "Review: X".data := by
  constructor
  · unfold executeStep cfgS2
    simp only [Option.getD_some]
    rw [show pyFormat "Review: \x7bs1.output\x7d".data ctxS1 = .attrErr from by
      simp [pyFormat, pyFormatGo, takeField, evalField, splitName, isDigitCh, ctxS1,
        ctxGet]]
  · simp [processTemplate, ptLoop, phStep, findPH, takeField, splitDots, ctxS1, ctxGet,
      sampleRec, recFieldGet, replaceAll, isPre]

/-- A text-input configuration. -/
def textInputCfg (v : String) : InputCfg :=
  { itype := some "text", value := some v, path := none, file_pattern := none,
    recursive := none, processing_strategy := none }

/-- A configuration in the primary documented format: a `steps` list (one
claude step) and no `ai_models` key. -/
def stepsOnlyCfg : Config :=
  { name := some "doc-review", description := none,
    input := textInputCfg "hello",
    steps := some [{ name := some "s1", model := some "claude",
                     prompt_template := some "\x7binput\x7d",
                     model_params := { maxTokens := none, temperature := none },
                     task := none }],
    ai_models := none,
    model := { mtype := none },
    output := { otype := none, path := none, format := none } }

/-- C1 (code bug): `run_configurable_workflow` never reads the `steps` list.
Its result is unchanged under arbitrary replacement of the `steps` value,
and on a steps-only configuration (one claude step, text input `"hello"`)
the run performs exactly one chatgpt call on the raw input — the fallback
single-model path — instead of executing the configured claude step and
building the step context. -/
theorem c1_steps_ignored :
    (∀ (ext : ExtColl) (P : Providers) (s1 s2 : Option (List StepCfg)),
      runConfigurableWorkflow ext P { stepsOnlyCfg with steps := s1 } cliNone "text" =
        runConfigurableWorkflow ext P { stepsOnlyCfg with steps := s2 } cliNone "text") ∧
    (∀ (ext : ExtColl) (P : Providers),
      (runConfigurableWorkflow ext P stepsOnlyCfg cliNone "text").2 =
        [Call.chatgpt "hello" 1000 (7 / 10)]) := by
  constructor
  · intro ext P s1 s2
    rfl
  · intro ext P
    cases hc : P.chatgpt "hello" 1000 (7 / 10) with
    | success t m u =>
      simp [runConfigurableWorkflow, getInputFromConfig, processInput, cliNone,
        stepsOnlyCfg, textInputCfg, isPySpace, callChatgptDict, dictHasError, hc]
    | failure e ft =>
      simp [runConfigurableWorkflow, getInputFromConfig, processInput, cliNone,
        stepsOnlyCfg, textInputCfg, isPySpace, callChatgptDict, dictHasError, hc]

/-- `ai_models` entry for chatgpt with no explicit parameters. -/
def cgCfg : ModelCfg :=
  { name := some "chatgpt", task := none,
    parameters := { maxTokens := none, temperature := none } }

/-- `ai_models` entry for claude with no explicit parameters. -/
def clCfg : ModelCfg :=
  { name := some "claude", task := none,
    parameters := { maxTokens := none, temperature := none } }

/-- `ai_models` entry referencing an unrecognized model identity. -/
def bogusCfg : ModelCfg :=
  { name := some "bogus", task := none,
    parameters := { maxTokens := none, temperature := none } }

/-- The step record the first `ai_models` step produces on `stubP`. -/
def cgRec : StepOk :=
  { output := "chatgpt-out", text := "chatgpt-out", model := "chatgpt",
    model_info := "gpt-3.5-turbo", usage := [("total_tokens", 7)],
    step_name := "step_1", task := "Step 1" }

/-- The context after that first step. -/
def ctxAfter1 : Context :=
  [("input", CtxVal.s "chatgpt-out"), ("step_1", CtxVal.record cgRec)]

/-- C5 counterexample: on the two-entry `ai_models` list `[chatgpt, bogus]`
the run does invoke chatgpt for the first step before surfacing the
configuration error of the second, contradicting `no model invocation is
made for any step of the run, including steps listed before the invalid
one`. -/
theorem c5_counterexample :
    runAiModels stubP "hi" [cgCfg, bogusCfg] "text" =
      (.err "Invalid model: bogus", [Call.chatgpt "hi" 1000 (7 / 10)]) := by
  simp [runAiModels, runAiLoop, aiStepCfg, cgCfg, bogusCfg, executeStep, stubP,
    stepFinish, pyFormat, pyFormatGo, takeField, evalField, splitName, isDigitCh,
    ctxGet, ctxSet, stepName, natString, natChars]

/-- C5 (amended): the `Invalid model` error is surfaced only when the
invalid step is reached: all steps before it execute (invoking their
models), the invalid step and all following steps make no invocation, and
the whole run returns the configuration error. -/
theorem c5_invalid_surfaces_on_reach (P : Providers) (t0 fmt : String)
    (pre : List ModelCfg) (mk : ModelCfg) (post : List ModelCfg)
    (ctx' : Context) (ns : List String) (tpre : List Call) (m : String)
    (h1 : runAiLoop P [("input", CtxVal.s t0)] [] 0 pre = (.done ctx' ns, tpre))
    (hname : mk.name = some m)
    (hm1 : m ≠ "chatgpt") (hm2 : m ≠ "claude") (hm3 : m ≠ "web_search") :
    runAiModels P t0 (pre ++ mk :: post) fmt =
      (.err ("Invalid model: " ++ m), tpre) := by
  have hinp0 : ctxGet [("input", CtxVal.s t0)] "input" = some (.s t0) := by
    simp [ctxGet]
  obtain ⟨w, hw⟩ := (runAiLoop_done_inv pre P _ [] 0 ctx' ns tpre h1).2 t0 hinp0
  have hexec := executeStep_invalid P (aiStepCfg pre.length mk) ctx' w m hw rfl
    (by simp [aiStepCfg, hname]) hm1 hm2 hm3
  have hrun := runAiModels_step_err P t0 fmt pre mk post ctx' ns tpre
    ("Invalid model: " ++ m) [] h1 hexec
  simpa using hrun

theorem c5_witness :
    runAiModels stubP "hi" ([cgCfg] ++ bogusCfg :: []) "text" =
      (.err ("Invalid model: " ++ "bogus"), [Call.chatgpt "hi" 1000 (7 / 10)]) :=
  c5_invalid_surfaces_on_reach stubP "hi" "text" [cgCfg] bogusCfg []
    ctxAfter1 ["step_1"] [Call.chatgpt "hi" 1000 (7 / 10)] "bogus"
    (by simp [runAiLoop, aiStepCfg, cgCfg, executeStep, stubP, stepFinish, pyFormat,
      pyFormatGo, takeField, evalField, splitName, isDigitCh, ctxGet, ctxSet,
      stepName, natString, natChars, ctxAfter1, cgRec])
    rfl (by decide) (by decide) (by decide)

/-- C6: when the loop has completed the steps before `k` and step `k`
returns an error-tagged record, the run aborts: the returned value carries
exactly step `k`'s error, and the invocation trace is that of steps
`1..k-1` plus step `k` only — steps `k+1..N` (the `post` list) contribute
no invocation whatsoever. -/
theorem c6_step_failure_aborts (P : Providers) (t0 fmt : String)
    (pre : List ModelCfg) (mk : ModelCfg) (post : List ModelCfg)
    (ctx' : Context) (ns : List String) (tpre : List Call) (e : String)
    (tk : List Call)
    (h1 : runAiLoop P [("input", CtxVal.s t0)] [] 0 pre = (.done ctx' ns, tpre))
    (h2 : executeStep P (aiStepCfg pre.length mk) ctx' = (.err e, tk)) :
    runAiModels P t0 (pre ++ mk :: post) fmt = (.err e, tpre ++ tk) :=
  runAiModels_step_err P t0 fmt pre mk post ctx' ns tpre e tk h1 h2

theorem c6_witness :
    runAiModels stubClaudeErr "hi" ([] ++ clCfg :: [cgCfg]) "text" =
      (.err "boom", [] ++ [Call.claude "hi" 1000 (7 / 10)]) :=
  c6_step_failure_aborts stubClaudeErr "hi" "text" [] clCfg [cgCfg]
    [("input", CtxVal.s "hi")] [] [] "boom" [Call.claude "hi" 1000 (7 / 10)]
    rfl
    (by simp [aiStepCfg, clCfg, executeStep, stubClaudeErr, stepFinish, pyFormat,
      pyFormatGo, takeField, evalField, splitName, isDigitCh, ctxGet, stepName,
      natString, natChars])

/-- C7: a failed step leaves the context untouched — `execute_step` returns
only a record and never writes the context (it is a pure reader in this
embedding, mirroring lines 156-213, which never assign into `context`), the
runner inserts a record and rebinds `input` only after a success (lines
348-358), the run aborts at the failure, and the failed step's generated
name (indeed any not-yet-executed step name) is not a key of the context the
failing step was executed against. -/
theorem c7_context_isolation (P : Providers) (t0 fmt : String)
    (pre : List ModelCfg) (mk : ModelCfg) (post : List ModelCfg)
    (ctx' : Context) (ns : List String) (tpre : List Call) (e : String)
    (tk : List Call)
    (h1 : runAiLoop P [("input", CtxVal.s t0)] [] 0 pre = (.done ctx' ns, tpre))
    (h2 : executeStep P (aiStepCfg pre.length mk) ctx' = (.err e, tk)) :
    runAiModels P t0 (pre ++ mk :: post) fmt = (.err e, tpre ++ tk) ∧
    (∀ j, pre.length < j → stepName j ∉ ctxKeys ctx') := by
  refine ⟨runAiModels_step_err P t0 fmt pre mk post ctx' ns tpre e tk h1 h2, ?_⟩
  intro j hj hmem
  rcases (runAiLoop_done_inv pre P _ [] 0 ctx' ns tpre h1).1 (stepName j) hmem with
    hk | hk | ⟨j', hj1, hj2, hj3⟩
  · have : stepName j = "input" := by simpa [ctxKeys] using hk
    exact stepName_ne_input j this
  · exact stepName_ne_input j hk
  · have := stepName_inj hj3
    omega

theorem c7_witness :
    (runAiModels stubClaudeErr "out-of-band" ([] ++ clCfg :: [cgCfg]) "text" =
      (.err "boom", [] ++ [Call.claude "out-of-band" 1000 (7 / 10)])) ∧
    stepName 1 ∉ ctxKeys [("input", CtxVal.s "out-of-band")] := by
  have h := c7_context_isolation stubClaudeErr "out-of-band" "text" [] clCfg [cgCfg]
    [("input", CtxVal.s "out-of-band")] [] [] "boom"
    [Call.claude "out-of-band" 1000 (7 / 10)]
    rfl
    (by simp [aiStepCfg, clCfg, executeStep, stubClaudeErr, stepFinish, pyFormat,
      pyFormatGo, takeField, evalField, splitName, isDigitCh, ctxGet, stepName,
      natString, natChars])
  exact ⟨h.1, h.2 1 (by decide)⟩

/-- A replacement field is `plain` when it is a bare keyword name: non-empty,
not all digits (which would be a positional reference), and free of the
attribute/index/conversion/format-spec syntax. -/
def plainOk (f : List Char) : Bool :=
  !f.isEmpty && !f.contains '.' && !f.contains '\x5b' && !f.contains '\x7b' &&
    !f.contains ':' && !f.contains '!' && !f.all isDigitCh

/-- The field names of a format template whose braces are well formed and
whose replacement fields are all plain names, in order of appearance;
`none` when the template is outside that class. -/
def plainFields (l : List Char) : Option (List String) :=
  match l with
  | [] => some []
  | c :: rest =>
    if c = '\x7b' then
      match rest with
      | c2 :: rest2 =>
        if c2 = '\x7b' then plainFields rest2
        else
          match htf : takeField (c2 :: rest2) with
          | none => none
          | some (f, rest') =>
            if plainOk f then (plainFields rest').map (fun fs => String.mk f :: fs)
            else none
      | [] => none
    else if c = '\x7d' then
      match rest with
      | c2 :: rest2 => if c2 = '\x7d' then plainFields rest2 else none
      | [] => none
    else plainFields rest
termination_by l.length
decreasing_by
  · simp [List.length_cons]; omega
  · have := takeField_len _ _ _ htf; simp [List.length_cons] at this ⊢; omega
  · simp [List.length_cons]; omega
  · simp [List.length_cons]

theorem splitName_plain :
    ∀ f : List Char, f.contains '.' = false → f.contains '\x5b' = false →
      splitName f = (f, []) := by
  intro f
  induction f with
  | nil => intro _ _; rfl
  | cons c rest ih =>
    intro h1 h2
    simp only [List.contains_cons, Bool.or_eq_false_iff, beq_eq_false_iff_ne,
      ne_eq] at h1 h2
    rw [splitName]
    have hcond : ¬(c = '.' ∨ c = '\x5b') := by
      rintro (h | h)
      · exact h1.1 h.symm
      · exact h2.1 h.symm
    rw [if_neg hcond]
    simp [ih h1.2 h2.2]

theorem evalField_plain (f : List Char) (ctx : Context) (h : plainOk f = true) :
    evalField f ctx =
      match ctxGet ctx (String.mk f) with
      | none => .keyErr (String.mk f)
      | some (.s w) => .ok w.data
      | some (.record _) => .unmodeled := by
  simp only [plainOk, Bool.and_eq_true, Bool.not_eq_true'] at h
  obtain ⟨⟨⟨⟨⟨⟨h0, h1⟩, h2⟩, h3⟩, h4⟩, h5⟩, h6⟩ := h
  unfold evalField
  rw [h4, h5]
  simp only [Bool.or_self, Bool.false_eq_true, if_false]
  rw [h3]
  simp only [Bool.false_eq_true, if_false]
  rw [splitName_plain f h1 h2]
  have hne : f ≠ [] := by
    intro hf
    rw [hf] at h0
    simp [List.isEmpty] at h0
  simp only [hne, h6, Bool.or_self, if_false, Bool.false_eq_true]
  cases ctxGet ctx (String.mk f) with
  | none => rfl
  | some v => cases v <;> rfl

/-- `str.format` scanning lemma: on a template whose fields are plain names,
once the fields before `name` resolve to strings and `name` is absent from
the context, the scan raises `KeyError(name)`. -/
theorem pyFormatGo_missing (ctx : Context) :
    ∀ n l, l.length ≤ n → ∀ (fs1 : List String) (name : String) (fs2 : List String)
      (acc : List Char),
      plainFields l = some (fs1 ++ name :: fs2) →
      (∀ f, f ∈ fs1 → ∃ v, ctxGet ctx f = some (.s v)) →
      ctxGet ctx name = none →
      pyFormatGo ctx acc l = .keyErr name := by
  intro n
  induction n with
  | zero =>
    intro l hlen fs1 name fs2 acc hpf _ _
    have hnil : l = [] := List.length_eq_zero.mp (Nat.le_zero.mp hlen)
    subst hnil
    rw [plainFields] at hpf
    simp at hpf
  | succ n ih =>
    intro l hlen fs1 name fs2 acc hpf hpres hmiss
    cases l with
    | nil =>
      rw [plainFields] at hpf
      simp at hpf
    | cons c rest =>
      rw [plainFields.eq_def] at hpf
      rw [pyFormatGo.eq_def]
      dsimp only [] at hpf ⊢
      by_cases hc : c = '\x7b'
      · rw [if_pos hc] at hpf ⊢
        cases rest with
        | nil => simp at hpf
        | cons c2 rest2 =>
          dsimp only [] at hpf ⊢
          by_cases hc2 : c2 = '\x7b'
          · rw [if_pos hc2] at hpf ⊢
            exact ih rest2 (by simp at hlen; omega) fs1 name fs2 _ hpf hpres hmiss
          · rw [if_neg hc2] at hpf ⊢
            cases htf : takeField (c2 :: rest2) with
            | none =>
              rw [htf] at hpf
              simp at hpf
            | some pr =>
              obtain ⟨f, rest'⟩ := pr
              rw [htf] at hpf
              simp only at hpf ⊢
              by_cases hok : plainOk f
              · rw [if_pos hok] at hpf
                simp only [Option.map_eq_some'] at hpf
                obtain ⟨fs', hfs', hcons⟩ := hpf
                rw [evalField_plain f ctx hok]
                cases fs1 with
                | nil =>
                  simp only [List.nil_append] at hcons
                  injection hcons.symm with hname hfs2
                  rw [← hname, hmiss]
                | cons f0 fs1' =>
                  simp only [List.cons_append] at hcons
                  injection hcons.symm with hf0 hrest
                  obtain ⟨v, hv⟩ := hpres f0 (List.mem_cons_self f0 fs1')
                  rw [← hf0, hv]
                  have hlen' : rest'.length ≤ n := by
                    have := takeField_len _ _ _ htf
                    simp at hlen this
                    omega
                  exact ih rest' hlen' fs1' name fs2 _ (by rw [hfs', hrest])
                    (fun g hg => hpres g (List.mem_cons_of_mem f0 hg)) hmiss
              · rw [if_neg hok] at hpf
                simp at hpf
      · rw [if_neg hc] at hpf ⊢
        by_cases hd : c = '\x7d'
        · rw [if_pos hd] at hpf ⊢
          cases rest with
          | nil => simp at hpf
          | cons c2 rest2 =>
            dsimp only [] at hpf ⊢
            by_cases hc2 : c2 = '\x7d'
            · rw [if_pos hc2] at hpf ⊢
              exact ih rest2 (by simp at hlen; omega) fs1 name fs2 _ hpf hpres hmiss
            · rw [if_neg hc2] at hpf
              simp at hpf
        · rw [if_neg hd] at hpf ⊢
          exact ih rest (by simp at hlen; omega) fs1 name fs2 _ hpf hpres hmiss

/-- A step whose template references a placeholder absent from every context
below. -/
def cfgMissing : StepCfg :=
  { name := some "s1", model := some "chatgpt",
    prompt_template := some "Hello \x7bmissing\x7d",
    model_params := { maxTokens := none, temperature := none }, task := none }

/-- C2 counterexample: on the template `Hello {missing}` with a context not
binding `missing`, `execute_step` returns the error record `{"error":
"Missing context variable: 'missing'", "output": None}` and performs no
model invocation — it does not leave the placeholder in place and pass the
prompt on, as the claim states. -/
theorem c2_counterexample :
    executeStep stubP cfgMissing [("input", CtxVal.s "x")] =
      (.err ("Missing context variable: " ++ pyKeyRepr "missing"), []) := by
  unfold executeStep cfgMissing
  simp only [Option.getD_some]
  rw [show pyFormat "Hello \x7bmissing\x7d".data [("input", CtxVal.s "x")] =
      .keyErr "missing" from by
    simp [pyFormat, pyFormatGo, takeField, evalField, splitName, isDigitCh, ctxGet]]

/-- C2 (amended): `execute_step` resolves the template with `str.format`,
not with the pass-through `process_template`; on a well-formed template with
plain-name placeholders, when the placeholders before `name` resolve to
strings and `name` is not a key of the context, it catches the `KeyError`
and returns `{"error": "Missing context variable: '<name>'", "output":
None}` without invoking any model. -/
theorem c2_missing_key_errors (P : Providers) (cfg : StepCfg) (ctx : Context)
    (tpl : String) (fs1 fs2 : List String) (name : String)
    (htpl : cfg.prompt_template = some tpl)
    (hpf : plainFields tpl.data = some (fs1 ++ name :: fs2))
    (hpres : ∀ f, f ∈ fs1 → ∃ v, ctxGet ctx f = some (.s v))
    (hmiss : ctxGet ctx name = none) :
    executeStep P cfg ctx =
      (.err ("Missing context variable: " ++ pyKeyRepr name), []) := by
  unfold executeStep
  rw [htpl]
  simp only [Option.getD_some]
  rw [show pyFormat tpl.data ctx = .keyErr name from
    pyFormatGo_missing ctx tpl.data.length tpl.data le_rfl fs1 name fs2 [] hpf hpres
      hmiss]

theorem c2_witness :
    executeStep stubP
      { name := some "s0", model := some "claude",
        prompt_template := some "\x7binput\x7d and \x7babsent\x7d",
        model_params := { maxTokens := none, temperature := none }, task := none }
      [("input", CtxVal.s "x")] =
      (.err ("Missing context variable: " ++ pyKeyRepr "absent"), []) :=
  c2_missing_key_errors stubP _ [("input", CtxVal.s "x")]
    "\x7binput\x7d and \x7babsent\x7d" ["input"] [] "absent" rfl
    (by simp [plainFields, takeField, plainOk, isDigitCh])
    (by intro f hf; simp at hf; subst hf; exact ⟨"x", by simp [ctxGet]⟩)
    (by simp [ctxGet])

/-- C3 counterexample: `process_template` is not exception-free, and
unresolved placeholders do not always survive verbatim.  A placeholder with
two dots raises `ValueError` (`split('.')` yields three parts and the
two-name unpacking fails); an `input` bound to a record dict raises
`TypeError` in `str.replace`; and when a resolved placeholder's braced text
occurs inside an unresolved placeholder, the substitution rewrites the
unresolved placeholder's text, which then no longer appears verbatim. -/
theorem c3_counterexample :
    processTemplate "\x7ba.b.c\x7d" [] = .valueError ∧
    processTemplate "\x7binput\x7d" [("input", CtxVal.record sampleRec)] = .typeError ∧
    processTemplate "\x7binput\x7d \x7bs.x\x7binput\x7d" [("input", CtxVal.s "A")] =
      .ok "A \x7bs.xA".data ∧
    isSub "\x7bs.x\x7binput\x7d".data "A \x7bs.xA".data = false := by
  refine ⟨?_, ?_, ?_, ?_⟩
  · simp [processTemplate, ptLoop, phStep, findPH, takeField, splitDots, ctxGet]
  · simp [processTemplate, ptLoop, phStep, findPH, takeField, splitDots, ctxGet]
  · simp [processTemplate, ptLoop, phStep, findPH, takeField, splitDots, ctxGet,
      replaceAll, isPre]
  · decide

/-- C3 (amended): `process_template` returns a string, with every unresolved
placeholder still occurring verbatim (braced) in it, for every template and
context in which no placeholder triggers an exception (`phFails` — which
excludes placeholders with more than one dot, record-valued `input`,
dotted lookups into plain strings whose field is a substring, and the
dict-valued `usage` field) and no placeholder contains a `{`. -/
theorem c3_template_resolver (t : String) (ctx : Context)
    (hsafe : ∀ p, p ∈ findPH t.data → phFails ctx p = false)
    (hfree : ∀ p, p ∈ findPH t.data → '\x7b' ∉ p) :
    ∃ r, processTemplate t ctx = .ok r ∧
      ∀ p, p ∈ findPH t.data → phResolves ctx p = false →
        isSub ('\x7b' :: p ++ ['\x7d']) r = true := by
  obtain ⟨r, hr⟩ := ptLoop_total ctx (findPH t.data) t.data hsafe
  refine ⟨r, hr, ?_⟩
  intro p hp hres
  have hm := findPH_mem t.data.length t.data le_rfl p hp
  obtain ⟨r', hr', hocc⟩ := ptLoop_preserves ctx p (hfree p hp) hm.1 hres
    (findPH t.data) t.data hsafe
    (fun x hx => ⟨hfree x hx, (findPH_mem t.data.length t.data le_rfl x hx).1⟩)
    hm.2
  have : r = r' := by
    rw [hr] at hr'
    injection hr'
  rw [this]
  exact hocc

theorem c3_witness :
    ∃ r, processTemplate "go \x7bmissing\x7d go" [("input", CtxVal.s "A")] = .ok r ∧
      ∀ p, p ∈ findPH ("go \x7bmissing\x7d go" : String).data →
        phResolves [("input", CtxVal.s "A")] p = false →
          isSub ('\x7b' :: p ++ ['\x7d']) r = true :=
  c3_template_resolver "go \x7bmissing\x7d go" [("input", CtxVal.s "A")]
    (by
      intro p hp
      simp [findPH, takeField] at hp
      subst hp
      decide)
    (by
      intro p hp
      simp [findPH, takeField] at hp
      subst hp
      decide)
